import Mathlib

/-!
Verification of the LOKIV2 retrieval pipeline.

Shallow embedding of the Python sources:
  * `Indexer`      — src/indexer/create_vector_db.py (VectorDatabaseCreator)
  * `Search`       — src/loki_search.py (LokiSearch)
  * `Connector`    — src/connect_vector_db.py (VectorDBConnector)
  * `RootBuilder`  — src/create_vector_db.py (build order, status file)
  * `Gui`          — src/enhanced_loki_gui.py (StreamingProcessor, handle_user_input)
  * `PdfIndexer`   — src/indexer/pdf_indexer.py (PDFProcessor)

External effects (FAISS, sentence-transformers, the file system, subprocess
I/O) are modelled as explicit environments: fallible calls are
`Except String`-valued or `Option`-valued, matching the `try/except`
structure of the Python code.
-/

namespace Py

/-! Python string primitives, over `List Char` (a Python `str` is a
sequence of code points).  Only the operations the sources use are
modelled. -/

/-- The ASCII whitespace stripped by Python `str.strip()`. -/
def isSpace (c : Char) : Bool :=
  c = ' ' ∨ c = '\t' ∨ c = '\n' ∨ c = '\r' ∨ c = '\x0b' ∨ c = '\x0c'

/-- Python `str.strip()`. -/
def strip (s : List Char) : List Char :=
  ((s.dropWhile isSpace).reverse.dropWhile isSpace).reverse

/-- Python `str.lower()` (ASCII range). -/
def lower (s : List Char) : List Char := s.map Char.toLower

/-- Python `str.upper()` (ASCII range). -/
def upper (s : List Char) : List Char := s.map Char.toUpper

/-- Python `str.split(sep)` for a one-character separator. -/
def splitOnChar (a : Char) : List Char → List (List Char)
  | [] => [[]]
  | c :: rest =>
    if c = a then [] :: splitOnChar a rest
    else
      match splitOnChar a rest with
      | [] => [[c]]
      | h :: t => (c :: h) :: t

/-- Python `str.split(sep)` for a two-character separator (the sources
split on `"\n\n"`): the leftmost match is consumed first. -/
def splitOnPair (a b : Char) : List Char → List (List Char)
  | [] => [[]]
  | [c] => [[c]]
  | c1 :: c2 :: rest =>
    if c1 = a ∧ c2 = b then [] :: splitOnPair a b rest
    else
      match splitOnPair a b (c2 :: rest) with
      | [] => [[c1]]
      | h :: t => (c1 :: h) :: t

/-- Python `s[-k:]` for `k ≤ len(s)`. -/
def takeLast (k : Nat) (s : List Char) : List Char := s.drop (s.length - k)

end Py

namespace Indexer

/-- One chunk record of a per-document JSON shard, as read by
`VectorDatabaseCreator.create_vector_db`: the `"text"` and `"metadata"`
keys may be absent (the loop requires both), `"chunk_id"` defaults to 0. -/
structure ChunkJson (β : Type) where
  text : Option String
  metadata : Option β
  chunk_id : Option Nat
deriving DecidableEq

/-- A parsed shard file: the `"chunks"` key may be absent. -/
structure FileJson (β : Type) where
  chunks : Option (List (ChunkJson β))
deriving DecidableEq

/-- A metadata record as assembled by the loading loop: the copied
per-chunk metadata plus the `chunk_id` and `vector_id` keys set by the
loop. -/
structure MetaRec (β : Type) where
  base : β
  chunk_id : Nat
  vector_id : Nat
deriving DecidableEq

/-- Loading loop body for the chunks of one shard file
(src/indexer/create_vector_db.py lines 104-122): for each chunk with both
`"text"` and `"metadata"`, copy the metadata, set `chunk_id` and
`vector_id := len(all_texts)`, then skip empty texts when `skip_empty`
and otherwise append to both arrays. -/
def loadFileChunks (skipEmpty : Bool) :
    List (ChunkJson β) → List String × List (MetaRec β) → List String × List (MetaRec β)
  | [], s => s
  | c :: rest, (texts, metas) =>
    match c.text, c.metadata with
    | some t, some b =>
      let m : MetaRec β := { base := b, chunk_id := c.chunk_id.getD 0, vector_id := texts.length }
      if t = "" ∧ skipEmpty then
        loadFileChunks skipEmpty rest (texts, metas)
      else
        loadFileChunks skipEmpty rest (texts ++ [t], metas ++ [m])
    | _, _ => loadFileChunks skipEmpty rest (texts, metas)

/-- Loading loop over all shard files (lines 97-124): a file that fails to
parse, or has no `"chunks"` key, contributes nothing (the error is logged
and the loop continues). -/
def loadAllChunks (skipEmpty : Bool) :
    List (Except String (FileJson β)) → List String × List (MetaRec β) → List String × List (MetaRec β)
  | [], s => s
  | .error _ :: rest, s => loadAllChunks skipEmpty rest s
  | .ok f :: rest, s =>
    match f.chunks with
    | none => loadAllChunks skipEmpty rest s
    | some cs => loadAllChunks skipEmpty rest (loadFileChunks skipEmpty cs s)

/-- The embedding model and FAISS, as seen by the creator: batch encoding
and single-item encoding may fail (`model.encode` raising), `normalize`
is `faiss.normalize_L2` applied row-wise, `zero` is the
`np.zeros((1, vector_size))` placeholder row. -/
structure EncEnv (V : Type) where
  encBatch : List String → Option (List V)
  encItem : String → Option V
  normalize : V → V
  zero : V

/-- Python `all_texts[i:i+batch_size]` batching from
`range(0, len(all_texts), batch_size)`: split a list into consecutive
batches of size `bs` (the last batch may be shorter; `bs ≥ 1`). -/
def chunksOf (bs : Nat) : List α → List (List α)
  | [] => []
  | x :: xs => (x :: xs.take (bs - 1)) :: chunksOf bs (xs.drop (bs - 1))
termination_by l => l.length
decreasing_by
  simp only [List.length_drop, List.length_cons]
  omega

/-- Encoding loop (lines 157-175): encode each batch; if the batch call
fails, retry item by item, substituting the zero placeholder row for items
that still fail.  Each row of the resulting matrix corresponds to one
input text. -/
def encodeAll (env : EncEnv V) (bs : Nat) (texts : List String) : List V :=
  (chunksOf bs texts).flatMap fun batch =>
    match env.encBatch batch with
    | some vs => vs
    | none => batch.map fun t =>
        match env.encItem t with
        | some v => v
        | none => env.zero

/-- `VectorDatabaseCreator.create_vector_db` (lines 68-226), modelling the
FAISS index by the list of vectors added to it: load texts and metadata
from the shard files, return `none` when no texts were loaded (the code
returns `None, []`), otherwise encode all texts, L2-normalise, and return
the index vectors together with the chunk texts and the (JSON-serialised)
metadata array.  All metadata fields are JSON-native, so the
serialisation loop of lines 202-211 maps each record to itself. -/
def create_vector_db (env : EncEnv V) (bs : Nat) (skipEmpty : Bool)
    (files : List (Except String (FileJson β))) :
    Option (List V × List String × List (MetaRec β)) :=
  let s := loadAllChunks skipEmpty files ([], [])
  let texts := s.1
  let metas := s.2
  if texts = [] then none
  else
    let vectors := (encodeAll env bs texts).map env.normalize
    some (vectors, texts, metas)

/-- Alignment invariant of the loading state: as many texts as metadata
records, and each record's `vector_id` is its position. -/
def Aligned (s : List String × List (MetaRec β)) : Prop :=
  s.1.length = s.2.length ∧ ∀ i (h : i < s.2.length), (s.2.get ⟨i, h⟩).vector_id = i

theorem aligned_push {texts : List String} {metas : List (MetaRec β)} {t : String}
    {m : MetaRec β} (hs : Aligned (texts, metas)) (hm : m.vector_id = texts.length) :
    Aligned (texts ++ [t], metas ++ [m]) := by
  obtain ⟨hlen, hvec⟩ := hs
  constructor
  · simp [hlen]
  · intro i h
    rcases Nat.lt_or_ge i metas.length with hi | hi
    · rw [List.get_append_left _ _ hi]
      exact hvec i hi
    · have hlen2 : i = metas.length := by
        simp only [List.length_append, List.length_singleton] at h
        omega
      subst hlen2
      have : (metas ++ [m]).get ⟨metas.length, by simp⟩ = m := by
        simp
      rw [this, hm, hlen]

theorem loadFileChunks_aligned (skipEmpty : Bool) (cs : List (ChunkJson β))
    (s : List String × List (MetaRec β)) (hs : Aligned s) :
    Aligned (loadFileChunks skipEmpty cs s) := by
  induction cs generalizing s with
  | nil => simpa [loadFileChunks] using hs
  | cons c rest ih =>
    obtain ⟨texts, metas⟩ := s
    match hc : c.text, hm : c.metadata with
    | some t, some b =>
      simp only [loadFileChunks, hc, hm]
      by_cases he : t = "" ∧ skipEmpty
      · simp only [if_pos he]
        exact ih _ hs
      · simp only [if_neg he]
        exact ih _ (aligned_push hs rfl)
    | some t, none => simp only [loadFileChunks, hc, hm]; exact ih _ hs
    | none, some b => simp only [loadFileChunks, hc, hm]; exact ih _ hs
    | none, none => simp only [loadFileChunks, hc, hm]; exact ih _ hs

theorem loadAllChunks_aligned (skipEmpty : Bool) (files : List (Except String (FileJson β)))
    (s : List String × List (MetaRec β)) (hs : Aligned s) :
    Aligned (loadAllChunks skipEmpty files s) := by
  induction files generalizing s with
  | nil => simpa [loadAllChunks] using hs
  | cons f rest ih =>
    cases f with
    | error e => simp only [loadAllChunks]; exact ih _ hs
    | ok fj =>
      cases hfc : fj.chunks with
      | none => simp only [loadAllChunks, hfc]; exact ih _ hs
      | some cs =>
        simp only [loadAllChunks, hfc]
        exact ih _ (loadFileChunks_aligned skipEmpty cs s hs)

theorem chunksOf_flatten (bs : Nat) (l : List α) : (chunksOf bs l).flatten = l := by
  induction l using chunksOf.induct bs with
  | case1 => simp [chunksOf]
  | case2 x xs ih =>
    simp only [chunksOf, List.flatten_cons, ih]
    simp [List.cons_append, List.take_append_drop]

theorem encodeAll_length (env : EncEnv V) (bs : Nat) (texts : List String)
    (henv : ∀ b vs, env.encBatch b = some vs → vs.length = b.length) :
    (encodeAll env bs texts).length = texts.length := by
  have hbatch : ∀ batch : List String,
      (match env.encBatch batch with
        | some vs => vs
        | none => batch.map fun t =>
            match env.encItem t with
            | some v => v
            | none => env.zero).length = batch.length := by
    intro batch
    cases hb : env.encBatch batch with
    | none => simp
    | some vs => simpa using henv batch vs hb
  rw [encodeAll, List.length_flatMap]
  simp only [Function.comp_def]
  rw [List.map_congr_left (fun x _ => hbatch x)]
  rw [← List.length_flatten, chunksOf_flatten]

/-- C1. For every index produced by `create_vector_db`, the stored
vectors, the chunk texts and the metadata records have equal counts, and
the metadata record at every position `i` has `vector_id = i` — also when
empty-text chunks are skipped and when per-item encoding failures are
replaced by zero placeholder vectors.  The hypothesis on `encBatch` is
the sentence-transformers contract that a successful batch encode returns
one row per input. -/
theorem create_vector_db_alignment (env : EncEnv V) (bs : Nat) (skipEmpty : Bool)
    (files : List (Except String (FileJson β)))
    (henv : ∀ b vs, env.encBatch b = some vs → vs.length = b.length)
    (v : List V) (t : List String) (m : List (MetaRec β))
    (hout : create_vector_db env bs skipEmpty files = some (v, t, m)) :
    v.length = t.length ∧ t.length = m.length ∧
      ∀ i (h : i < m.length), (m.get ⟨i, h⟩).vector_id = i := by
  unfold create_vector_db at hout
  set s := loadAllChunks skipEmpty files ([], []) with hst
  by_cases hne : s.1 = []
  · simp only [← hst, hne, if_pos rfl] at hout
    exact absurd hout (by simp)
  · simp only [← hst, if_neg hne] at hout
    have hs : Aligned s := loadAllChunks_aligned skipEmpty files ([], []) ⟨rfl, by simp⟩
    simp only [Option.some.injEq, Prod.mk.injEq] at hout
    obtain ⟨hv, ht, hm⟩ := hout
    subst hv; subst ht; subst hm
    refine ⟨?_, hs.1, hs.2⟩
    simp [encodeAll_length env bs _ henv]

end Indexer

namespace Search

/-- The loaded database state of `LokiSearch`: the chunk text array and
the metadata array (src/loki_search.py lines 72-86). -/
structure DbState (μ : Type) where
  chunks : List String
  metadata : List μ
deriving DecidableEq

/-- The embedding model and the FAISS index as seen by
`LokiSearch.search`: encoding the query and searching the index may both
raise.  A successful `index.search` returns parallel distance/index
arrays, modelled as a list of `(distance, raw FAISS id)` pairs; distances
are exact rationals. -/
structure SearchEnv (E : Type) where
  encode : String → Except String E
  annSearch : E → Nat → Except String (List (ℚ × ℤ))

/-- One search result dict (lines 130-135). -/
structure SearchResult (μ : Type) where
  chunk : String
  metadata : μ
  distance : ℚ
  similarity : ℚ
deriving DecidableEq

/-- The dict returned by `LokiSearch.search`: the success shape carries
`total_results`, the failure shape carries `error` (search_time elided). -/
structure SearchResponse (μ : Type) where
  results : List (SearchResult μ)
  query : String
  total_results : Option Nat
  error : Option String
deriving DecidableEq

/-- The result-processing loop (lines 117-136): for each hit with a valid
id (`idx >= 0 and idx < len(self.chunks)`), compute
`similarity = 1/(1+distance)`, skip hits below `min_score`, and join with
chunk text and metadata.  The metadata access `self.metadata[idx]` is not
bounds-checked in the source, so it can raise `IndexError`, which the
enclosing `try` turns into an error return. -/
def buildResults (st : DbState μ) (minScore : ℚ) :
    List (ℚ × ℤ) → Except String (List (SearchResult μ))
  | [] => .ok []
  | (d, idx) :: rest =>
    if h : 0 ≤ idx ∧ idx.toNat < st.chunks.length then
      let sim : ℚ := 1 / (1 + d)
      if sim < minScore then buildResults st minScore rest
      else
        match st.metadata.get? idx.toNat with
        | none => .error "list index out of range"
        | some m =>
          match buildResults st minScore rest with
          | .error e => .error e
          | .ok rs =>
            .ok ({ chunk := st.chunks.get ⟨idx.toNat, h.2⟩, metadata := m,
                   distance := d, similarity := sim } :: rs)
    else buildResults st minScore rest

/-- The body of the `try` block of `LokiSearch.search` (lines 107-146):
encode the query, search the index, process the hits. -/
def searchExc (env : SearchEnv E) (st : DbState μ) (query : String)
    (top_k : Nat) (min_score : ℚ) : Except String (List (SearchResult μ)) :=
  match env.encode query with
  | .error e => .error e
  | .ok emb =>
    match env.annSearch emb top_k with
    | .error e => .error e
    | .ok hits => buildResults st min_score hits

/-- `LokiSearch.search` (lines 105-150): the whole body runs under
`try`; any exception is caught and an error dict with an empty result
list is returned. -/
def search (env : SearchEnv E) (st : DbState μ) (query : String)
    (top_k : Nat) (min_score : ℚ) : SearchResponse μ :=
  match searchExc env st query top_k min_score with
  | .ok rs => { results := rs, query := query, total_results := some rs.length, error := none }
  | .error e => { results := [], query := query, total_results := none, error := some e }

/-- Outcome of one round of `LokiSearch.interactive_search`
(lines 211-235). -/
inductive CliAction where
  | exitLoop
  | showHelp
  | askAgain
  | runSearch (q : List Char)
deriving DecidableEq

/-- One round of the interactive loop (lines 211-235): strip the input;
`exit`/`quit`/`q` (lowercased) exits, `help`/`h`/`?` shows help, an empty
query prompts again, anything else is searched. -/
def interactive_step (raw : List Char) : CliAction :=
  let query := Py.strip raw
  if Py.lower query = "exit".toList ∨ Py.lower query = "quit".toList ∨
      Py.lower query = "q".toList then .exitLoop
  else if Py.lower query = "help".toList ∨ Py.lower query = "h".toList ∨
      Py.lower query = "?".toList then .showHelp
  else if query = [] then .askAgain
  else .runSearch query

theorem buildResults_mem (st : DbState μ) (minScore : ℚ) (hits : List (ℚ × ℤ))
    (rs : List (SearchResult μ)) (hok : buildResults st minScore hits = .ok rs) :
    ∀ r ∈ rs, (∃ p ∈ hits, r.similarity = 1 / (1 + p.1)) ∧ minScore ≤ r.similarity := by
  induction hits generalizing rs with
  | nil =>
    simp only [buildResults, Except.ok.injEq] at hok
    subst hok; simp
  | cons hd rest ih =>
    obtain ⟨d, idx⟩ := hd
    simp only [buildResults] at hok
    split at hok
    · split at hok
      · intro r hr
        obtain ⟨hp, hms⟩ := ih rs hok r hr
        exact ⟨by obtain ⟨p, hmem, hsim⟩ := hp; exact ⟨p, List.mem_cons_of_mem _ hmem, hsim⟩, hms⟩
      · rename_i hval hskip
        match hmet : st.metadata.get? idx.toNat with
        | none => rw [hmet] at hok; exact absurd hok (by simp)
        | some m =>
          rw [hmet] at hok
          cases hrec : buildResults st minScore rest with
          | error e => rw [hrec] at hok; exact absurd hok (by simp)
          | ok rs0 =>
            rw [hrec] at hok
            simp only [Except.ok.injEq] at hok
            subst hok
            intro r hr
            rcases List.mem_cons.1 hr with hhead | htail
            · subst hhead
              refine ⟨⟨(d, idx), List.mem_cons_self _ _, rfl⟩, ?_⟩
              simpa using le_of_not_lt hskip
            · obtain ⟨hp, hms⟩ := ih rs0 hrec r htail
              exact ⟨by obtain ⟨p, hmem, hsim⟩ := hp; exact ⟨p, List.mem_cons_of_mem _ hmem, hsim⟩, hms⟩
    · intro r hr
      obtain ⟨hp, hms⟩ := ih rs hok r hr
      exact ⟨by obtain ⟨p, hmem, hsim⟩ := hp; exact ⟨p, List.mem_cons_of_mem _ hmem, hsim⟩, hms⟩

theorem buildResults_sorted (st : DbState μ) (minScore : ℚ) (hits : List (ℚ × ℤ))
    (rs : List (SearchResult μ)) (hok : buildResults st minScore hits = .ok rs)
    (hsort : (hits.map Prod.fst).Sorted (· ≤ ·))
    (hpos : ∀ d ∈ hits.map Prod.fst, 0 ≤ d) :
    (rs.map (·.similarity)).Sorted (· ≥ ·) := by
  induction hits generalizing rs with
  | nil =>
    simp only [buildResults, Except.ok.injEq] at hok
    subst hok; simp
  | cons hd rest ih =>
    obtain ⟨d, idx⟩ := hd
    have hsort2 : (rest.map Prod.fst).Sorted (· ≤ ·) := by
      simpa using (List.sorted_cons.1 (by simpa using hsort)).2
    have hle : ∀ d2 ∈ rest.map Prod.fst, d ≤ d2 := by
      intro d2 hd2
      exact (List.sorted_cons.1 (by simpa using hsort)).1 d2 hd2
    have hpos2 : ∀ d2 ∈ rest.map Prod.fst, 0 ≤ d2 := by
      intro d2 hd2; exact hpos d2 (by simpa using Or.inr hd2)
    have hd0 : (0 : ℚ) ≤ d := hpos d (by simp)
    simp only [buildResults] at hok
    split at hok
    · split at hok
      · exact ih rs hok hsort2 hpos2
      · match hmet : st.metadata.get? idx.toNat with
        | none => rw [hmet] at hok; exact absurd hok (by simp)
        | some m =>
          rw [hmet] at hok
          cases hrec : buildResults st minScore rest with
          | error e => rw [hrec] at hok; exact absurd hok (by simp)
          | ok rs0 =>
            rw [hrec] at hok
            simp only [Except.ok.injEq] at hok
            subst hok
            simp only [List.map_cons, List.sorted_cons]
            constructor
            · intro s hs
              obtain ⟨r, hr, hsim⟩ := List.mem_map.1 hs
              obtain ⟨⟨p, hpmem, hpsim⟩, _⟩ := buildResults_mem st minScore rest rs0 hrec r hr
              have hdp : d ≤ p.1 := hle p.1 (List.mem_map_of_mem Prod.fst hpmem)
              have hp0 : (0 : ℚ) ≤ p.1 := hpos2 p.1 (List.mem_map_of_mem Prod.fst hpmem)
              have : 1 / (1 + p.1) ≤ 1 / (1 + d) := by
                apply one_div_le_one_div_of_le
                · linarith
                · linarith
              rw [← hsim, hpsim]
              simpa using this
            · exact ih rs0 hrec hsort2 hpos2
    · exact ih rs hok hsort2 hpos2

/-- C2. If the underlying ANN search returns hits in ascending distance
order (with the non-negative distances of an L2 index), the result list
of `LokiSearch.search` — whose similarities are `1/(1+distance)` — is
monotonically non-increasing in similarity. -/
theorem search_results_sorted (env : SearchEnv E) (st : DbState μ) (q : String)
    (k : Nat) (ms : ℚ) (e : E) (hits : List (ℚ × ℤ))
    (henc : env.encode q = .ok e) (hann : env.annSearch e k = .ok hits)
    (hsort : (hits.map Prod.fst).Sorted (· ≤ ·))
    (hpos : ∀ d ∈ hits.map Prod.fst, 0 ≤ d) :
    ((search env st q k ms).results.map (·.similarity)).Sorted (· ≥ ·) := by
  simp only [search, searchExc, henc, hann]
  cases hb : buildResults st ms hits with
  | error e2 => simp
  | ok rs => simpa using buildResults_sorted st ms hits rs hb hsort hpos

theorem buildResults_all_below (st : DbState μ) (minScore : ℚ) (hits : List (ℚ × ℤ))
    (hall : ∀ p ∈ hits, 1 / (1 + p.1) < minScore) :
    buildResults st minScore hits = .ok [] := by
  induction hits with
  | nil => simp [buildResults]
  | cons hd rest ih =>
    obtain ⟨d, idx⟩ := hd
    have htail : ∀ p ∈ rest, 1 / (1 + p.1) < minScore :=
      fun p hp => hall p (List.mem_cons_of_mem _ hp)
    simp only [buildResults]
    split
    · rw [if_pos (hall (d, idx) (List.mem_cons_self _ _))]
      exact ih htail
    · exact ih htail

/-- C3. Every result returned by `LokiSearch.search` has
`similarity ≥ min_score`; and when every candidate hit falls below the
threshold, the call returns the success-shaped response with an empty
result list (no error). -/
theorem search_min_score_filter :
    (∀ (env : SearchEnv E) (st : DbState μ) (q : String) (k : Nat) (ms : ℚ)
       (r : SearchResult μ), r ∈ (search env st q k ms).results → ms ≤ r.similarity) ∧
    (∀ (env : SearchEnv E) (st : DbState μ) (q : String) (k : Nat) (ms : ℚ)
       (e : E) (hits : List (ℚ × ℤ)),
       env.encode q = .ok e → env.annSearch e k = .ok hits →
       (∀ p ∈ hits, 1 / (1 + p.1) < ms) →
       search env st q k ms =
         { results := [], query := q, total_results := some 0, error := none }) := by
  constructor
  · intro env st q k ms r hr
    unfold search at hr
    cases hb : searchExc env st q k ms with
    | error e2 => rw [hb] at hr; simp at hr
    | ok rs =>
      rw [hb] at hr
      simp only at hr
      unfold searchExc at hb
      cases henc : env.encode q with
      | error e2 => rw [henc] at hb; simp at hb
      | ok e =>
        rw [henc] at hb
        simp only at hb
        cases hann : env.annSearch e k with
        | error e2 => rw [hann] at hb; simp at hb
        | ok hits =>
          rw [hann] at hb
          simp only at hb
          exact (buildResults_mem st ms hits rs hb r hr).2
  · intro env st q k ms e hits henc hann hall
    simp only [search, searchExc, henc, hann, buildResults_all_below st ms hits hall]
    rfl

theorem buildResults_total (st : DbState μ) (minScore : ℚ) (hits : List (ℚ × ℤ))
    (hlen : st.chunks.length ≤ st.metadata.length) :
    ∃ rs, buildResults st minScore hits = .ok rs := by
  induction hits with
  | nil => exact ⟨[], rfl⟩
  | cons hd rest ih =>
    obtain ⟨d, idx⟩ := hd
    obtain ⟨rs0, hrs0⟩ := ih
    simp only [buildResults]
    split
    · rename_i h
      split
      · exact ⟨rs0, hrs0⟩
      · match hmet : st.metadata.get? idx.toNat with
        | none =>
          exact absurd (List.get?_eq_none.1 hmet) (by push_neg; omega)
        | some m =>
          exact ⟨_, by rw [hrs0]⟩
    · exact ⟨rs0, hrs0⟩

end Search

namespace Connector

/-- The model and index environment of `VectorDBConnector.search`
(src/connect_vector_db.py): the query vector is normalised before the
index search; encoding and searching may raise. -/
structure ConnEnv (E : Type) where
  encode : String → Except String E
  normalize : E → E
  annSearch : E → Nat → Except String (List (ℚ × ℤ))

/-- One result dict of `VectorDBConnector.search` (lines 102-106). -/
structure ConnResult (δ : Type) where
  score : ℚ
  metadata : δ
  vector_id : ℤ
deriving DecidableEq

/-- The result-formatting loop (lines 99-107): keep hits whose id is
within the metadata array. -/
def formatResults (metadata : List δ) : List (ℚ × ℤ) → List (ConnResult δ)
  | [] => []
  | (d, idx) :: rest =>
    if h : 0 ≤ idx ∧ idx.toNat < metadata.length then
      { score := d, metadata := metadata.get ⟨idx.toNat, h.2⟩, vector_id := idx } ::
        formatResults metadata rest
    else formatResults metadata rest

/-- The body of the `try` block of `VectorDBConnector.search`
(lines 88-109). -/
def searchExc (env : ConnEnv E) (metadata : List δ) (query : String) (k : Nat) :
    Except String (List (ConnResult δ)) :=
  match env.encode query with
  | .error e => .error e
  | .ok emb =>
    match env.annSearch (env.normalize emb) k with
    | .error e => .error e
    | .ok hits => .ok (formatResults metadata hits)

/-- `VectorDBConnector.search` (lines 77-112): any exception is caught
and the empty list is returned. -/
def search (env : ConnEnv E) (metadata : List δ) (query : String) (k : Nat) :
    List (ConnResult δ) :=
  match searchExc env metadata query k with
  | .ok rs => rs
  | .error _ => []

end Connector

/-- Concrete shard metadata and environment used to evaluate the C1
theorem: every batch encode fails, the item retry succeeds only for
`"world"`, so `"hello"` gets the zero placeholder; one shard fails to
parse, one chunk has empty text (skipped), one chunk lacks a text key. -/
def wEncEnv : Indexer.EncEnv Unit :=
  { encBatch := fun _ => none
    encItem := fun t => if t = "world" then some () else none
    normalize := id
    zero := () }

def wFiles : List (Except String (Indexer.FileJson Unit)) :=
  [ .error "invalid json",
    .ok ⟨some
      [ ⟨some "hello", some (), some 3⟩,
        ⟨some "", some (), some 4⟩,
        ⟨some "world", some (), none⟩,
        ⟨none, some (), some 5⟩ ]⟩,
    .ok ⟨none⟩ ]

def wMetas : List (Indexer.MetaRec Unit) :=
  [ { base := (), chunk_id := 3, vector_id := 0 },
    { base := (), chunk_id := 0, vector_id := 1 } ]

theorem create_vector_db_alignment_witness :
    ([(), ()] : List Unit).length = (["hello", "world"] : List String).length ∧
    (["hello", "world"] : List String).length = wMetas.length ∧
    ∀ i (h : i < wMetas.length), (wMetas.get ⟨i, h⟩).vector_id = i :=
  Indexer.create_vector_db_alignment wEncEnv 32 true wFiles
    (by intro b vs h; simp [wEncEnv] at h)
    [(), ()] ["hello", "world"] wMetas
    (by simp [Indexer.create_vector_db, Indexer.loadAllChunks, Indexer.loadFileChunks,
              Indexer.encodeAll, Indexer.chunksOf, wEncEnv, wFiles, wMetas])

/-- Environment for evaluating the search theorems: two hits at ascending
L2 distances 0 and 1, both pointing at the single stored chunk. -/
def q2Env : Search.SearchEnv Unit :=
  { encode := fun _ => .ok (), annSearch := fun _ _ => .ok [(0, 0), (1, 0)] }

def q9St : Search.DbState Unit := { chunks := ["c"], metadata := [()] }

theorem search_results_sorted_witness :
    ((Search.search q2Env q9St "water" 2 0).results.map (·.similarity)).Sorted (· ≥ ·) :=
  Search.search_results_sorted q2Env q9St "water" 2 0 () [(0, 0), (1, 0)]
    rfl rfl (by norm_num [List.sorted_cons]) (by norm_num)

/-- Environment whose single hit has distance 1, hence similarity 1/2,
below a 0.9 threshold. -/
def q3Env : Search.SearchEnv Unit :=
  { encode := fun _ => .ok (), annSearch := fun _ _ => .ok [(1, 0)] }

/-- Environment for the empty-query scenario: encoding the empty string
succeeds and the index returns one hit at distance 0. -/
def q9Env : Search.SearchEnv Unit :=
  { encode := fun _ => .ok (), annSearch := fun _ _ => .ok [(0, 0)] }

theorem search_min_score_filter_witness :
    ((1 : ℚ) / 2 ≤ ({ chunk := "c", metadata := (), distance := 0, similarity := 1 } :
        Search.SearchResult Unit).similarity) ∧
    Search.search q3Env q9St "xyzzy-nonsense" 5 (9 / 10) =
      { results := [], query := "xyzzy-nonsense", total_results := some 0, error := none } :=
  ⟨(Search.search_min_score_filter (E := Unit) (μ := Unit)).1 q9Env q9St "water" 5 (1 / 2)
      { chunk := "c", metadata := (), distance := 0, similarity := 1 }
      (by norm_num [Search.search, Search.searchExc, Search.buildResults, q9Env, q9St]),
   (Search.search_min_score_filter (E := Unit) (μ := Unit)).2 q3Env q9St "xyzzy-nonsense" 5
      (9 / 10) () [(1, 0)] rfl rfl (by norm_num)⟩

/-- C9 counterexample. `LokiSearch.search` contains no empty-query
validation: with a database of one chunk and an index that answers the
encoded empty query, `search("", 5)` returns a success response with a
result taken from the index — it neither fails with `InvalidQuery` nor
avoids the index read. -/
theorem empty_query_counterexample :
    (Search.search q9Env q9St "" 5 0).error = none ∧
    (Search.search q9Env q9St "" 5 0).results ≠ [] := by
  norm_num [Search.search, Search.searchExc, Search.buildResults, q9Env, q9St]

/-- C9 amended. `LokiSearch.search` performs no validation of the empty
query: it is encoded and the ANN index is searched like any other query,
yielding a success response; only the interactive CLI loop declines to
search a blank input, prompting again instead. -/
theorem empty_query_no_validation :
    (∀ (env : Search.SearchEnv E) (st : Search.DbState μ) (k : Nat) (ms : ℚ)
       (e : E) (hits : List (ℚ × ℤ)),
       env.encode "" = .ok e → env.annSearch e k = .ok hits →
       st.chunks.length ≤ st.metadata.length →
       (Search.search env st "" k ms).error = none) ∧
    Search.interactive_step "".toList = .askAgain ∧
    Search.interactive_step "   ".toList = .askAgain := by
  refine ⟨?_, by decide, by decide⟩
  intro env st k ms e hits henc hann hlen
  obtain ⟨rs, hrs⟩ := Search.buildResults_total st ms hits hlen
  simp [Search.search, Search.searchExc, henc, hann, hrs]

theorem empty_query_no_validation_witness :
    (Search.search q9Env q9St "" 5 0).error = none :=
  (empty_query_no_validation (E := Unit) (μ := Unit)).1 q9Env q9St 5 0 () [(0, 0)]
    rfl rfl (by decide)

/-- Environments whose encode step raises, for evaluating the C10
theorem. -/
def failSearchEnv : Search.SearchEnv Unit :=
  { encode := fun _ => .error "CUDA out of memory", annSearch := fun _ _ => .ok [] }

def failConnEnv : Connector.ConnEnv Unit :=
  { encode := fun _ => .error "CUDA out of memory", normalize := id,
    annSearch := fun _ _ => .ok [] }

/-- C10. The public search operations are total: both `LokiSearch.search`
and `VectorDBConnector.search` run their pipeline under a catch-all
`except`, and whenever any internal step (query encoding, index search,
result assembly) raises, the caller receives an empty result list instead
of the exception. -/
theorem search_never_raises :
    (∀ (env : Search.SearchEnv E) (st : Search.DbState μ) (q : String) (k : Nat)
       (ms : ℚ) (e : String),
       Search.searchExc env st q k ms = .error e →
       Search.search env st q k ms =
         { results := [], query := q, total_results := none, error := some e }) ∧
    (∀ (env : Connector.ConnEnv F) (metadata : List δ) (q : String) (k : Nat)
       (e : String),
       Connector.searchExc env metadata q k = .error e →
       Connector.search env metadata q k = []) := by
  constructor
  · intro env st q k ms e h
    simp [Search.search, h]
  · intro env metadata q k e h
    simp [Connector.search, h]

theorem search_never_raises_witness :
    Search.search failSearchEnv q9St "q" 5 0 =
      { results := [], query := "q", total_results := none,
        error := some "CUDA out of memory" } ∧
    Connector.search failConnEnv ([] : List Unit) "q" 5 = [] :=
  ⟨(search_never_raises (E := Unit) (μ := Unit) (F := Unit) (δ := Unit)).1
      failSearchEnv q9St "q" 5 0 "CUDA out of memory" rfl,
   (search_never_raises (E := Unit) (μ := Unit) (F := Unit) (δ := Unit)).2
      failConnEnv [] "q" 5 "CUDA out of memory" rfl⟩

namespace Gui

/-!
`StreamingProcessor` (src/enhanced_loki_gui.py lines 171-218).  The reader
thread and `request_stop` race on the `stop_requested` flag; the
interleaving is made explicit by a clock: iteration `i` of the reader loop
checks the flag at clock `2*i` and invokes the output callback at clock
`2*i + 1`, and `t` is the clock from which the flag reads true
(`request_stop` sets it before the event at clock `t` runs).  The loop is
modelled on its non-raising path; `_run_process` is straight-line code
that invokes the completion callback exactly once.
-/

/-- The output-line callbacks fired by the reader loop of `_run_process`
(lines 208-210), each paired with the clock at which it fires: iteration
`i` breaks out of the loop when the check at clock `2*i` sees the flag,
and otherwise emits its line at clock `2*i + 1`. -/
def runEmits (t : Nat) (clock : Nat) : List String → List (Nat × String)
  | [] => []
  | line :: rest =>
    if t ≤ clock then []
    else (clock + 1, line) :: runEmits t (clock + 2) rest

/-- The status passed to the completion callback (line 212):
`-1` when `stop_requested` is set by the time of the final flag read
(which is no earlier than clock `2 * lines.length`), the process exit
code otherwise. -/
def finalStatus (lines : List String) (t : Nat) (waitCode : Int) : Int :=
  if t ≤ 2 * lines.length then -1 else waitCode

theorem runEmits_stopped (t clock : Nat) (lines : List String) (h : t ≤ clock) :
    runEmits t clock lines = [] := by
  cases lines with
  | nil => rfl
  | cons line rest => simp [runEmits, h]

theorem runEmits_late (t : Nat) (lines : List String) : ∀ clock,
    ((runEmits t clock lines).filter (fun p => decide (t ≤ p.1))).length ≤ 1 := by
  induction lines with
  | nil => intro clock; simp [runEmits]
  | cons line rest ih =>
    intro clock
    by_cases hc : t ≤ clock
    · simp [runEmits, hc]
    · simp only [runEmits, if_neg hc]
      by_cases hc1 : t ≤ clock + 1
      · have hstop : runEmits t (clock + 2) rest = [] :=
          runEmits_stopped t (clock + 2) rest (by omega)
        simp [List.filter, hc1, hstop]
      · simp only [List.filter_cons, decide_eq_true_eq]
        rw [if_neg hc1]
        exact ih (clock + 2)

/-- C4. If `request_stop` sets the stop flag at clock `t` while the
reader loop is still running (`t ≤ 2 * lines.length`), then at most one
further output-line callback fires at or after clock `t`, and the
completion callback reports status `-1`. -/
theorem request_stop_semantics (lines : List String) (t : Nat) (waitCode : Int)
    (hrun : t ≤ 2 * lines.length) :
    ((runEmits t 0 lines).filter (fun p => decide (t ≤ p.1))).length ≤ 1 ∧
    finalStatus lines t waitCode = -1 := by
  exact ⟨runEmits_late t lines 0, by simp [finalStatus, hrun]⟩

/-- Outcome of `EnhancedLokiGUI.handle_user_input` (lines 540-551). -/
inductive UserAction where
  | ignored
  | stopCmd
  | playCmd
  | query (q : List Char)
deriving DecidableEq

/-- `EnhancedLokiGUI.handle_user_input` (lines 540-551): strip the input;
an empty input is ignored; if the uppercased input equals the configured
stop word (`config.get("emergency.stop_command_word", "STOP")`, default
`"STOP"` from loki_config.py line 47) the stop command runs; if it equals
`"PLAY"` the games launcher runs; otherwise the input is processed as a
query. -/
def handle_user_input (stopWord : List Char) (raw : List Char) : UserAction :=
  let input := Py.strip raw
  if input = [] then .ignored
  else if Py.upper input = stopWord then .stopCmd
  else if Py.upper input = "PLAY".toList then .playCmd
  else .query input

/-- C5 counterexample. With the default stop word `"STOP"`, the
lowercase input `"stop"` triggers the stop command rather than being
processed as an ordinary query: the comparison uppercases the user input
first, so it is not case-sensitive in the input. -/
theorem stop_word_case_counterexample :
    handle_user_input "STOP".toList "stop".toList = .stopCmd ∧
    handle_user_input "STOP".toList "stop".toList ≠ .query "stop".toList := by
  decide

/-- C5 amended. The stop command triggers exactly when the stripped
input is non-empty and its uppercased form equals the configured stop
word: with the default word `"STOP"` every case variant of `stop`
cancels the running handle, and only inputs whose uppercasing differs
from the configured word are processed as ordinary queries. -/
theorem stop_word_match_characterisation (stopWord raw : List Char) :
    handle_user_input stopWord raw = .stopCmd ↔
      (Py.strip raw ≠ [] ∧ Py.upper (Py.strip raw) = stopWord) := by
  simp only [handle_user_input]
  by_cases h0 : Py.strip raw = []
  · simp [h0]
  · by_cases h1 : Py.upper (Py.strip raw) = stopWord
    · simp [h0, h1]
    · by_cases h2 : Py.upper (Py.strip raw) = "PLAY".toList
      · rw [if_neg h0, if_neg h1, if_pos h2]
        simp [h0, h1]
      · rw [if_neg h0, if_neg h1, if_neg h2]
        simp [h0, h1]

end Gui

namespace RootBuilder

/-- The artifacts of the on-disk index directory
(src/create_vector_db.py, src/loki_search.py). -/
inductive Artifact where
  | faissIndex
  | chunksPkl
  | metadataPkl
  | dbInfo
  | statusJson
deriving DecidableEq

/-- The order in which the build writes the artifacts:
`create_vector_database` (src/create_vector_db.py lines 84-105) writes
`faiss_index.bin`, `chunks.pkl`, `metadata.pkl`, then `db_info.json`;
`main` writes `status.json` last (lines 174-180). -/
def buildWrites : List Artifact :=
  [.faissIndex, .chunksPkl, .metadataPkl, .dbInfo, .statusJson]

/-- The directory contents of a build aborted after `k` writes. -/
def partialBuild (k : Nat) : List Artifact := buildWrites.take k

/-- Outcome of `LokiSearch.load_database`: `sys.exit(1)` when the
directory or a required artifact is missing, otherwise a successful load
recording whether the optional manifest `db_info.json` was read. -/
inductive LoadResult where
  | exitNoDb
  | exitMissing (a : Artifact)
  | okLoad (manifestLoaded : Bool)
deriving DecidableEq

/-- `LokiSearch.load_database` (src/loki_search.py lines 42-103): exit if
the directory is missing; read `db_info.json` if present (otherwise fall
back to a default model name); exit if `faiss_index.bin`, `chunks.pkl` or
`metadata.pkl` is missing. -/
def load_database (dirExists : Bool) (arts : List Artifact) : LoadResult :=
  if dirExists = false then .exitNoDb
  else
    let manifestLoaded := Artifact.dbInfo ∈ arts
    if Artifact.faissIndex ∉ arts then .exitMissing .faissIndex
    else if Artifact.chunksPkl ∉ arts then .exitMissing .chunksPkl
    else if Artifact.metadataPkl ∉ arts then .exitMissing .metadataPkl
    else .okLoad manifestLoaded

/-- C7 counterexample. A partial build aborted after the three data
artifacts but before the manifest (`db_info.json`) and status file are
written is not ignored by the loader: `load_database` succeeds on it
(with the manifest marked absent), instead of failing with a
missing-artifact error. -/
theorem partial_build_loads_counterexample :
    load_database true (partialBuild 3) = .okLoad false := by
  decide

/-- C7 amended. The build does write the status file last; and the
loader exits whenever `faiss_index.bin`, `chunks.pkl` or `metadata.pkl`
is missing — a successful load implies all three are present — but the
manifest is optional, so a partial build directory containing the three
data artifacts without `db_info.json` loads successfully instead of
being ignored. -/
theorem status_written_last_loader_checks :
    buildWrites.getLast? = some .statusJson ∧
    (∀ (arts : List Artifact) (b : Bool) (r : Bool),
       load_database b arts = .okLoad r →
       Artifact.faissIndex ∈ arts ∧ Artifact.chunksPkl ∈ arts ∧
         Artifact.metadataPkl ∈ arts) ∧
    load_database true (partialBuild 3) = .okLoad false := by
  refine ⟨rfl, ?_, by decide⟩
  intro arts b r h
  unfold load_database at h
  by_cases hb : b = false
  · simp [hb] at h
  · simp only [hb, if_false] at h
    by_cases h1 : Artifact.faissIndex ∈ arts
    · by_cases h2 : Artifact.chunksPkl ∈ arts
      · by_cases h3 : Artifact.metadataPkl ∈ arts
        · exact ⟨h1, h2, h3⟩
        · simp [h1, h2, h3] at h
      · simp [h1, h2] at h
    · simp [h1] at h

theorem status_written_last_loader_checks_witness :
    Artifact.faissIndex ∈ buildWrites ∧ Artifact.chunksPkl ∈ buildWrites ∧
      Artifact.metadataPkl ∈ buildWrites :=
  status_written_last_loader_checks.2.1 buildWrites true true (by decide)

end RootBuilder

theorem request_stop_semantics_witness :
    ((Gui.runEmits 3 0 ["partial line", "late line"]).filter
        (fun p => decide (3 ≤ p.1))).length ≤ 1 ∧
    Gui.finalStatus ["partial line", "late line"] 3 7 = -1 :=
  Gui.request_stop_semantics ["partial line", "late line"] 3 7 (by decide)

namespace PdfIndexer

/-- The `"\n\n"` separator used for paragraph splits and joins. -/
def nn : List Char := ['\n', '\n']

/-- One chunk dict produced by `PDFProcessor.chunk_text`
(src/indexer/pdf_indexer.py lines 217-347). -/
structure TextChunk (μ : Type) where
  text : List Char
  metadata : μ
  chunk_id : Nat
deriving DecidableEq

/-- The sentence loop of `chunk_text` (lines 262-279): grow
`current_sentence_chunk`, emitting it as a chunk when the next sentence
would push it past `chunk_size`.  State: `(chunks, chunk_id,
current_sentence_chunk)`. -/
def sentenceLoop (chunk_size : Nat) (md : μ) :
    List (List Char) → List (TextChunk μ) × Nat × List Char →
    List (TextChunk μ) × Nat × List Char
  | [], s => s
  | sentence :: rest, (chunks, chunk_id, csc) =>
    if csc.length + sentence.length + 1 > chunk_size ∧ csc ≠ [] then
      sentenceLoop chunk_size md rest
        (chunks ++ [⟨csc, md, chunk_id⟩], chunk_id + 1, sentence)
    else
      sentenceLoop chunk_size md rest
        (chunks, chunk_id, if csc ≠ [] then csc ++ [' '] ++ sentence else sentence)

/-- The paragraph loop of `chunk_text` (lines 243-307).  An over-long
paragraph flushes the current chunk and is split into sentences
(`[s.strip() + "." for s in para.split(".") if s.strip()]`, falling back
to the raw paragraph when no sentence survives); otherwise the paragraph
is appended to the current chunk, emitting the chunk first — with a
`chunk_overlap`-character carry-over — when it would grow past
`chunk_size`.  State: `(chunks, chunk_id, current_chunk)`. -/
def paraLoop (chunk_size chunk_overlap : Nat) (md : μ) :
    List (List Char) → List (TextChunk μ) × Nat × List Char →
    List (TextChunk μ) × Nat × List Char
  | [], s => s
  | para :: rest, (chunks, chunk_id, current) =>
    if para.length > chunk_size then
      let flushed : List (TextChunk μ) × Nat :=
        if current ≠ [] then (chunks ++ [⟨current, md, chunk_id⟩], chunk_id + 1)
        else (chunks, chunk_id)
      let sentences0 := (Py.splitOnChar '.' para).filterMap fun s =>
        let t := Py.strip s
        if t = [] then none else some (t ++ ['.'])
      let sentences := if sentences0 = [] then [para] else sentences0
      let out := sentenceLoop chunk_size md sentences (flushed.1, flushed.2, [])
      paraLoop chunk_size chunk_overlap md rest (out.1, out.2.1, out.2.2)
    else if current.length + para.length + 2 > chunk_size ∧ current ≠ [] then
      let newCurrent :=
        if current.length > chunk_overlap then
          Py.takeLast chunk_overlap current ++ nn ++ para
        else para
      paraLoop chunk_size chunk_overlap md rest
        (chunks ++ [⟨current, md, chunk_id⟩], chunk_id + 1, newCurrent)
    else
      paraLoop chunk_size chunk_overlap md rest
        (chunks, chunk_id, if current ≠ [] then current ++ nn ++ para else para)

/-- The consolidation loop of `chunk_text` (lines 321-342): fuse adjacent
chunks while the combined text stays below `chunk_size * 2`; a chunk that
does not fit is started as the new accumulator with
`chunk_id = len(consolidated)` taken after the push. -/
def consolidateAux (chunk_size : Nat) (md : μ) :
    List (TextChunk μ) → List (TextChunk μ) × TextChunk μ → List (TextChunk μ)
  | [], (consolidated, temp) =>
    if temp.text ≠ [] then consolidated ++ [temp] else consolidated
  | c :: rest, (consolidated, temp) =>
    if temp.text.length + c.text.length < chunk_size * 2 then
      consolidateAux chunk_size md rest
        (consolidated,
         { temp with text := if temp.text ≠ [] then temp.text ++ nn ++ c.text else c.text })
    else
      consolidateAux chunk_size md rest
        (consolidated ++ [temp], ⟨c.text, md, (consolidated ++ [temp]).length⟩)

/-- The consolidation pass, started from the `{"text": "", "chunk_id": 0}`
accumulator (line 322). -/
def consolidate (chunk_size : Nat) (md : μ) (chunks : List (TextChunk μ)) :
    List (TextChunk μ) :=
  consolidateAux chunk_size md chunks ([], ⟨[], md, 0⟩)

/-- `PDFProcessor.chunk_text` (lines 217-347): a text that fits in
`chunk_size` is one chunk; otherwise split on `"\n\n"` and run the
paragraph loop, append the residual buffer, and run the consolidation
pass when more than `max_chunks = 100` chunks were produced. -/
def chunk_text (chunk_size chunk_overlap : Nat) (text : List Char) (md : μ) :
    List (TextChunk μ) :=
  if text.length ≤ chunk_size then [⟨text, md, 0⟩]
  else
    let paragraphs := Py.splitOnPair '\n' '\n' text
    let out := paraLoop chunk_size chunk_overlap md paragraphs ([], 0, [])
    let chunks :=
      if out.2.2 ≠ [] then out.1 ++ [⟨out.2.2, md, out.2.1⟩] else out.1
    if chunks.length > 100 then consolidate chunk_size md chunks else chunks

end PdfIndexer

namespace PdfIndexer

/-- The PDF reading side effects of `extract_text_from_pdf`:
`nativeRead` models the PyPDF2 extraction (a failure of the outer `try`;
per-page failures already appear as `""` entries in the page list, lines
113-121), and `ocrRun` models `_extract_text_with_ocr`, which re-raises
its conversion errors (lines 203-205). -/
structure PdfEnv where
  nativeRead : Except String (List String)
  ocrRun : Except String (List String)

/-- `PDFProcessor.extract_text_from_pdf` (lines 84-152).  The
average-characters test `total / max(1, pages) ≥ min_chars` is stated as
the equivalent integer inequality `min_chars * max 1 pages ≤ total`.
Returns the page texts and the `ocr_used` flag; the function never
raises, substituting sentinel single-page texts on failure. -/
def extract_text_from_pdf (ocrEnabled : Bool) (minCharsPerPage : Nat) (env : PdfEnv) :
    List String × Bool :=
  let stage1 : Option (List String × Bool) :=
    match env.nativeRead with
    | .ok pageTexts =>
      let totalTextLength := (pageTexts.map String.length).sum
      if minCharsPerPage * max 1 pageTexts.length ≤ totalTextLength then
        some (pageTexts, false)
      else if ocrEnabled = false then some (pageTexts, false)
      else none
    | .error e =>
      if ocrEnabled = false then some (["TEXT EXTRACTION FAILED: " ++ e], false)
      else none
  match stage1 with
  | some r => r
  | none =>
    if ocrEnabled then
      match env.ocrRun with
      | .ok ocrTexts => (ocrTexts, true)
      | .error e => (["OCR FAILED: " ++ e], false)
    else (["TEXT EXTRACTION FAILED AND OCR IS DISABLED"], false)

end PdfIndexer

/-- An environment in which native extraction finds 2 characters on one
page (below the 50 chars/page threshold) and OCR raises at runtime. -/
def ocrFailEnv : PdfIndexer.PdfEnv :=
  { nativeRead := .ok ["ab"], ocrRun := .error "boom" }

/-- C8 counterexample. When the native text falls below the threshold and
OCR fails at runtime, `extract_text_from_pdf` does not return the native
page texts: it returns the single sentinel page `"OCR FAILED: <err>"`
(with `ocr_used=false`), discarding the extracted native text.  (It also
never raises: with no native text and OCR disabled it returns sentinel
text rather than failing.) -/
theorem extract_ocr_fail_counterexample :
    PdfIndexer.extract_text_from_pdf true 50 ocrFailEnv = (["OCR FAILED: boom"], false) ∧
    (["OCR FAILED: boom"] : List String) ≠ ["ab"] := by
  exact ⟨by decide, by decide⟩

/-- C8 amended. When OCR is disabled, `extract_text_from_pdf` returns the
native page texts with `ocr_used=false` — below the threshold, and even
when they are empty; when the native extraction itself raises and OCR is
disabled, it returns the single sentinel page
`"TEXT EXTRACTION FAILED: <err>"` with `ocr_used=false` instead of
failing; and when OCR is enabled but fails at runtime, it returns the
single sentinel page `"OCR FAILED: <err>"` with `ocr_used=false`,
discarding the native text. -/
theorem extract_fallback_behaviour :
    (∀ (env : PdfIndexer.PdfEnv) (minChars : Nat) (pages : List String),
       env.nativeRead = .ok pages →
       PdfIndexer.extract_text_from_pdf false minChars env = (pages, false)) ∧
    (∀ (env : PdfIndexer.PdfEnv) (minChars : Nat) (e : String),
       env.nativeRead = .error e →
       PdfIndexer.extract_text_from_pdf false minChars env =
         (["TEXT EXTRACTION FAILED: " ++ e], false)) ∧
    (∀ (env : PdfIndexer.PdfEnv) (minChars : Nat) (pages : List String) (e : String),
       env.nativeRead = .ok pages →
       (pages.map String.length).sum < minChars * max 1 pages.length →
       env.ocrRun = .error e →
       PdfIndexer.extract_text_from_pdf true minChars env =
         (["OCR FAILED: " ++ e], false)) := by
  refine ⟨?_, ?_, ?_⟩
  · intro env minChars pages hok
    by_cases hth : minChars * max 1 pages.length ≤ (pages.map String.length).sum <;>
      simp [PdfIndexer.extract_text_from_pdf, hok, hth]
  · intro env minChars e herr
    simp [PdfIndexer.extract_text_from_pdf, herr]
  · intro env minChars pages e hok hbelow hocr
    have hth : ¬ minChars * max 1 pages.length ≤ (pages.map String.length).sum := by omega
    simp [PdfIndexer.extract_text_from_pdf, hok, hth, hocr]

theorem extract_fallback_behaviour_witness :
    PdfIndexer.extract_text_from_pdf false 50 ocrFailEnv = (["ab"], false) ∧
    PdfIndexer.extract_text_from_pdf false 50
        ({ nativeRead := .error "corrupt", ocrRun := .ok [] } : PdfIndexer.PdfEnv) =
      (["TEXT EXTRACTION FAILED: corrupt"], false) ∧
    PdfIndexer.extract_text_from_pdf true 50 ocrFailEnv = (["OCR FAILED: boom"], false) :=
  ⟨extract_fallback_behaviour.1 ocrFailEnv 50 ["ab"] rfl,
   extract_fallback_behaviour.2.1 { nativeRead := .error "corrupt", ocrRun := .ok [] }
     50 "corrupt" rfl,
   extract_fallback_behaviour.2.2 ocrFailEnv 50 ["ab"] "boom" rfl (by decide) rfl⟩

set_option maxRecDepth 10000 in
/-- C6 counterexample.  `max_chunks = 100` is hard-coded in `chunk_text`;
`chunk_size`/`chunk_overlap` are the constructor parameters (default
2000/200, CLI-settable).  Three violations of the claimed invariant:
(i) with `chunk_size=4`, a text of six newlines (only empty paragraphs)
yields 0 chunks, below the claimed minimum of 1 (any all-whitespace text
longer than `chunk_size` does the same at the defaults); (ii) with
`chunk_size=4`, a nine-character text without sentence breaks yields one
chunk of 10 characters, above `2 × CHUNK_SIZE = 8` (a 4001-character
text behaves the same at the defaults); (iii) with `chunk_size=1`, 102
one-character paragraphs yield 102 chunks even after the consolidation
pass, which is a single greedy pass and does not iterate until the
100-chunk bound holds. -/
theorem chunk_text_counterexample :
    PdfIndexer.chunk_text 4 2 (List.replicate 6 '\n') () = [] ∧
    (PdfIndexer.chunk_text 4 2 (List.replicate 9 'a') ()).map
      (fun c => c.text.length) = [10] ∧
    100 < (PdfIndexer.chunk_text 1 0
      (List.intercalate ['\n', '\n'] (List.replicate 102 ['a'])) ()).length := by
  exact ⟨by decide, by decide, by decide⟩

theorem consolidateAux_bound (cs : Nat) (md : μ) (origs : List (List Char)) :
    ∀ (rest : List (PdfIndexer.TextChunk μ)) (cons : List (PdfIndexer.TextChunk μ))
      (temp : PdfIndexer.TextChunk μ),
      (∀ x ∈ cons, x.text ∈ origs ∨ x.text.length < cs * 2 + 2) →
      (temp.text = [] ∨ temp.text ∈ origs ∨ temp.text.length < cs * 2 + 2) →
      (∀ c ∈ rest, c.text ∈ origs) →
      ∀ x ∈ PdfIndexer.consolidateAux cs md rest (cons, temp),
        x.text ∈ origs ∨ x.text.length < cs * 2 + 2 := by
  intro rest
  induction rest with
  | nil =>
    intro cons temp hcons htemp hrest x hx
    simp only [PdfIndexer.consolidateAux] at hx
    by_cases hne : temp.text ≠ []
    · rw [if_pos hne] at hx
      rcases List.mem_append.1 hx with hx | hx
      · exact hcons x hx
      · have hxt : x = temp := by simpa using hx
        subst hxt
        rcases htemp with h | h | h
        · exact absurd h hne
        · exact Or.inl h
        · exact Or.inr h
    · rw [if_neg hne] at hx
      exact hcons x hx
  | cons c rest ih =>
    intro cons temp hcons htemp hrest x hx
    simp only [PdfIndexer.consolidateAux] at hx
    by_cases hfit : temp.text.length + c.text.length < cs * 2
    · rw [if_pos hfit] at hx
      refine ih cons _ hcons ?_ (fun c2 hc2 => hrest c2 (List.mem_cons_of_mem _ hc2)) x hx
      dsimp only
      by_cases hne : temp.text = []
      · right; left
        simpa [hne] using hrest c (List.mem_cons_self _ _)
      · right; right
        rw [if_pos hne]
        simp only [List.length_append, PdfIndexer.nn, List.length_cons, List.length_nil]
        omega
    · rw [if_neg hfit] at hx
      refine ih _ _ ?_ ?_ (fun c2 hc2 => hrest c2 (List.mem_cons_of_mem _ hc2)) x hx
      · intro y hy
        rcases List.mem_append.1 hy with hy | hy
        · exact hcons y hy
        · have hyt : y = temp := by simpa using hy
          subst hyt
          rcases htemp with h | h | h
          · right; rw [h]; simp
          · exact Or.inl h
          · exact Or.inr h
      · right; left
        exact hrest c (List.mem_cons_self _ _)

/-- C6 amended.  `chunk_text` returns exactly one chunk — the whole text,
id 0 — whenever the text fits in `chunk_size`.  The consolidation pass
(which runs only when more than 100 chunks were produced) only merges
adjacent chunks while their combined length stays under
`2 × chunk_size`, so each chunk it returns either carries the text of a
pre-consolidation chunk unchanged or is a merge of fewer than
`2 × chunk_size + 2` characters.  The originally claimed bounds — at
least 1 chunk, at most 100 chunks, and every chunk at most
`2 × chunk_size` — do not hold in general. -/
theorem chunk_text_amended :
    (∀ (cs co : Nat) (md : μ) (text : List Char), text.length ≤ cs →
       PdfIndexer.chunk_text cs co text md = [⟨text, md, 0⟩]) ∧
    (∀ (cs : Nat) (md : μ) (chunks : List (PdfIndexer.TextChunk μ))
       (x : PdfIndexer.TextChunk μ),
       x ∈ PdfIndexer.consolidate cs md chunks →
       x.text ∈ chunks.map PdfIndexer.TextChunk.text ∨ x.text.length < cs * 2 + 2) := by
  constructor
  · intro cs co md text h
    simp [PdfIndexer.chunk_text, h]
  · intro cs md chunks x hx
    exact consolidateAux_bound cs md (chunks.map PdfIndexer.TextChunk.text) chunks [] _
      (by simp) (Or.inl rfl)
      (fun c hc => List.mem_map_of_mem _ hc) x hx

theorem chunk_text_amended_witness :
    PdfIndexer.chunk_text 10 2 "hello".toList () =
      [⟨"hello".toList, (), 0⟩] ∧
    ((⟨['a'], (), 0⟩ : PdfIndexer.TextChunk Unit).text ∈
        [(⟨['a'], (), 0⟩ : PdfIndexer.TextChunk Unit)].map PdfIndexer.TextChunk.text ∨
      (⟨['a'], (), 0⟩ : PdfIndexer.TextChunk Unit).text.length < 2 * 2 + 2) :=
  ⟨(chunk_text_amended (μ := Unit)).1 10 2 () "hello".toList (by decide),
   (chunk_text_amended (μ := Unit)).2 2 () [⟨['a'], (), 0⟩] ⟨['a'], (), 0⟩ (by decide)⟩
